import Mathlib

/-!
# Verification of `strategy.py` (jmsadair/algoTrading)

Shallow embedding of the two strategies in `src/strategy.py`:

* `BuyAndHoldStrategy` — the baseline strategy (`buyHoldCalc`);
* `BollingerBandJohansenStrategy` — the basket mean-reversion strategy
  (`bbInit`, `findStationaryPortfolio`, `currentPortfolioPrice`,
  `orderPortfolio`, `bbDecide`, `bbCalculateSignals`).

Conventions of the embedding:

* Python floats are modelled as exact rationals `ℚ`; the z-score, which
  involves a square root, is handled through the decidable comparison
  functions `zcmpGE`/`zcmpLE`, proved equivalent to the real-number
  comparisons `z ≥ t` / `z ≤ t` (`zcmpGE_iff_real`, `zcmpLE_iff_real`).
* Python exceptions are modelled with `Except PyErr`: an update that would
  raise returns `.error e` (the partially mutated state is discarded, as the
  exception escapes `calculate_signals`).
* The external collaborators (data provider, Johansen cointegration routine
  `generate_hedge_ratio`, stationarity test `is_stationary`, `dot` — all from
  `utils.py`/the data handler, which are outside the sources) are modelled
  from the spec as parameters collected in `Env`, with the output structure
  `CointRes` holding exactly the projections the strategy reads.
* The event queue is replaced by the returned list of `SignalEvent`s, in
  emission order.
-/

namespace AlgoTrading

/-- Instrument identifiers (ticker symbols). -/
abbrev Sym := ℕ

/-- One instrument bar, with the fields `strategy.py` reads:
`bar['Symbol']`, `bar['Date']`, `bar['Close']`, `bar['Dividend']`,
`bar['Split']`. Dates are abstracted to naturals. -/
structure Bar where
  Symbol : Sym
  Date : ℕ
  Close : ℚ
  Dividend : ℚ
  Split : ℚ
  deriving DecidableEq, Repr

/-- Signal directive, the third argument of `SignalEvent` in the source. -/
inductive Direction where
  | LONG
  | SHORT
  | EXIT
  deriving DecidableEq, Repr

/-- A signal record pushed to the outbound event queue.
The baseline strategy constructs `SignalEvent(symbol, date, 'LONG')` with the
default strength; modelled from the spec: the default strength is `1.0`. -/
structure SignalEvent where
  symbol : Sym
  date : ℕ
  direction : Direction
  strength : ℚ
  deriving DecidableEq, Repr

/-- Event kinds: `calculate_signals` only reacts to `event.type == 'MARKET'`. -/
inductive EType where
  | MARKET
  | OTHER
  deriving DecidableEq, Repr

/-- Python exceptions the embedded code can raise. `systemExit` models the
`sys.exit(0)` call on exhausted basket search (`SystemExit`). -/
inductive PyErr where
  | indexError
  | typeError
  | statisticsError
  | zeroDivisionError
  | systemExit
  deriving DecidableEq, Repr

instance {ε α : Type} [DecidableEq ε] [DecidableEq α] : DecidableEq (Except ε α) := fun a b =>
  match a, b with
  | .ok x, .ok y =>
    if h : x = y then .isTrue (h ▸ rfl)
    else .isFalse (fun hc => h (Except.noConfusion hc id))
  | .ok _, .error _ => .isFalse (fun hc => Except.noConfusion hc)
  | .error _, .ok _ => .isFalse (fun hc => Except.noConfusion hc)
  | .error e, .error f =>
    if h : e = f then .isTrue (h ▸ rfl)
    else .isFalse (fun hc => h (Except.noConfusion hc id))

/-- Modelled from the spec: `dot` from `utils.py` (not among the sources) on
two vectors — "the dot product of the (possibly adjusted) weight vector and
the members' close prices". -/
def dotQ (xs ys : List ℚ) : ℚ :=
  (List.zipWith (fun a b => a * b) xs ys).sum

/-- Modelled from the spec: `dot` from `utils.py` applied to a matrix (list of
rows) and a vector, as in `dot(prices, hedge_ratio)` on the training matrix —
the weighted synthetic price series, one entry per row. -/
def matVec (m : List (List ℚ)) (v : List ℚ) : List ℚ :=
  m.map (fun row => dotQ row v)

/-- `statistics.mean`, as exact rational arithmetic: sum divided by length. -/
def pymean (xs : List ℚ) : ℚ :=
  xs.sum / (xs.length : ℚ)

/-- The sample variance underlying `statistics.stdev`:
`Σ (x − mean)² / (n − 1)`.  `stdev xs = √(pyvariance xs)`; `stdev` raises
`StatisticsError` when `n < 2`, which the caller models explicitly. -/
def pyvariance (xs : List ℚ) : ℚ :=
  (xs.map (fun x => (x - pymean xs) ^ 2)).sum / ((xs.length : ℚ) - 1)

/-- Decidable form of the source's z-score comparison `zscore >= t`, where
`zscore = d / √v` with `d = price − mean` and `v` the sample variance.
For `v > 0` this equals the real comparison `t ≤ d / √v`
(`zcmpGE_iff_real`): the case split on the sign of `t` removes the square
root by squaring. -/
def zcmpGE (d v t : ℚ) : Bool :=
  if 0 < t then decide (0 ≤ d) && decide (t ^ 2 * v ≤ d ^ 2)
  else decide (0 ≤ d) || decide (d ^ 2 ≤ t ^ 2 * v)

/-- Decidable form of `zscore <= t` (see `zcmpGE`); equals the real
comparison `d / √v ≤ t` for `v > 0` (`zcmpLE_iff_real`). -/
def zcmpLE (d v t : ℚ) : Bool :=
  zcmpGE (-d) v (-t)

/-- `itertools.combinations`: all `k`-element subsequences of `xs`, in the
order produced by the standard lexicographic generation (combinations that
contain the first element come first, in lexicographic order of positions). -/
def combinations {α : Type} : ℕ → List α → List (List α)
  | 0, _ => [[]]
  | _ + 1, [] => []
  | k + 1, x :: xs =>
    (combinations k xs).map (fun c => x :: c) ++ combinations (k + 1) xs

/-- Modelled from the spec: the output contract of the cointegration routine
`generate_hedge_ratio` (`utils.py`, not among the sources) —
`cointegrationTest(matrix) -> { weightVectors, traceStat1, traceStat2,
criticalValues1, criticalValues2 }`.  The fields hold exactly the projections
`strategy.py` reads: `evec0 = results.evec[:, 0]`, `lr1_0 = results.lr1[0]`,
`lr2_0 = results.lr2[0]`, `cvt0_last = results.cvt[0][-1]`,
`cvm0_last = results.cvm[0][-1]`. -/
structure CointRes where
  evec0 : List ℚ
  lr1_0 : ℚ
  lr2_0 : ℚ
  cvt0_last : ℚ
  cvm0_last : ℚ
  deriving DecidableEq, Repr

/-- The external collaborators for one processed update, modelled from the
spec (§6): the data provider (`sortOldest` = `orderedByOldestHistory`,
`trainSet port` = the aligned close-price training matrix served after
`update_symbol_list(port, date)`, `latest` = `latestBars(s, 1)` where a `none`
entry stands for a `None`/`{}` bar), the cointegration routine `gen`
(failing with a linear-algebra error on degenerate input, modelled as
`.error ()`), and the stationarity oracle `isStat`. -/
structure Env where
  sortOldest : List Sym
  trainSet : List Sym → List (List ℚ)
  gen : List (List ℚ) → Except Unit CointRes
  isStat : List ℚ → Bool
  latest : Sym → List (Option Bar)

/-- Number of columns of a row-major matrix (length of its first row). -/
def numCols (m : List (List ℚ)) : ℕ :=
  (m.headD []).length

/-- The corporate-action adjustment factor of one bar:
`split_ratio * (close + dividend) / close`. -/
def adjFactor (b : Bar) : ℚ :=
  b.Split * (b.Close + b.Dividend) / b.Close

/-! ## Baseline strategy (`BuyAndHoldStrategy`) -/

/-- State of `BuyAndHoldStrategy`: the active symbol list and the
per-instrument "already entered" flags (`self.bought`). -/
structure BHState where
  symbol_list : List Sym
  bought : Sym → Bool

/-- `BuyAndHoldStrategy._calculate_initial_bought`: every flag `False`. -/
def calcInitialBought : Sym → Bool := fun _ => false

/-- The per-symbol loop of `BuyAndHoldStrategy.calculate_signals`:
`bar = self.bars.get_latest_bars(s, N=1)[0]` (raising `IndexError` on an
empty sequence), skip when the bar is `None`/`{}` or the symbol was already
bought, otherwise emit one `LONG` signal and set the flag. -/
def bhLoop (latest : Sym → List (Option Bar)) (bought : Sym → Bool) :
    List Sym → Except PyErr (List SignalEvent × (Sym → Bool))
  | [] => .ok ([], bought)
  | s :: rest =>
    match latest s with
    | [] => .error .indexError
    | none :: _ => bhLoop latest bought rest
    | some bar :: _ =>
      if bought s then bhLoop latest bought rest
      else
        match bhLoop latest (fun x => if x = s then true else bought x) rest with
        | .error e => .error e
        | .ok (sigs, b) =>
          .ok (SignalEvent.mk bar.Symbol bar.Date .LONG 1 :: sigs, b)

/-- `BuyAndHoldStrategy.calculate_signals`: on a `MARKET` event, run the
per-symbol loop; other events are ignored. -/
def buyHoldCalc (latest : Sym → List (Option Bar)) (ev : EType) (st : BHState) :
    Except PyErr (List SignalEvent × BHState) :=
  if ev = .MARKET then
    match bhLoop latest st.bought st.symbol_list with
    | .error e => .error e
    | .ok (sigs, b) => .ok (sigs, { st with bought := b })
  else .ok ([], st)

/-! ## Basket strategy (`BollingerBandJohansenStrategy`) -/

/-- State of `BollingerBandJohansenStrategy`: thresholds (`self.enter`,
`self.exit`), `self.current_date`, the active basket (`self.bars.symbol_list`,
reconfigured by `update_symbol_list` during basket selection), the hedge-ratio
vector, the two position flags and the synthetic price series. -/
structure BBState where
  enter : ℚ
  exit : ℚ
  current_date : ℕ
  symbol_list : List Sym
  hedge_ratio : List ℚ
  long : Bool
  short : Bool
  portfolio_prices : List ℚ
  deriving DecidableEq, Repr

/-- The body of the candidate loop in `_find_stationary_portfolio`
(lines 128–143): train on the candidate, run the cointegration routine
(a linear-algebra failure is logged and the candidate skipped), extract
`evec[:, 0]`, build the synthetic series, and accept when
`lr1[0] >= cvt[0][-1] and lr2[0] >= cvm[0][-1] and is_stationary(series)`.
Returns the hedge ratio and the training synthetic series on acceptance. -/
def acceptCandidate (env : Env) (port : List Sym) : Option (List ℚ × List ℚ) :=
  match env.gen (env.trainSet port) with
  | .error _ => none
  | .ok results =>
    let hedge := results.evec0
    let pp := matVec (env.trainSet port) hedge
    if results.cvt0_last ≤ results.lr1_0 ∧ results.cvm0_last ≤ results.lr2_0 ∧
        env.isStat pp = true then
      some (hedge, pp)
    else none

/-- The candidate loop of `_find_stationary_portfolio`: first accepted
candidate wins; when the list is exhausted, `sys.exit(0)` (modelled as
`.error .systemExit`).  Returns the hedge ratio, the training synthetic
series (`self.portfolio_prices`) and the accepted basket (the last
`update_symbol_list` leaves it as `self.bars.symbol_list`). -/
def findStatAux (env : Env) : List (List Sym) → Except PyErr (List ℚ × List ℚ × List Sym)
  | [] => .error .systemExit
  | port :: rest =>
    match acceptCandidate env port with
    | some (hedge, pp) => .ok (hedge, pp, port)
    | none => findStatAux env rest

/-- `BollingerBandJohansenStrategy._find_stationary_portfolio`: enumerate all
12-element subsets of the oldest-first universe with
`itertools.combinations(tickers, 12)` and return the first accepted one. -/
def findStationaryPortfolio (env : Env) : Except PyErr (List ℚ × List ℚ × List Sym) :=
  findStatAux env (combinations 12 env.sortOldest)

/-- Reference (spec-side) selector for the refinement claim: filter-map the
candidate list through the acceptance test and take the first hit. -/
def selectorSpec (env : Env) : Option (List ℚ × List ℚ × List Sym) :=
  (combinations 12 env.sortOldest).findSome?
    (fun port => (acceptCandidate env port).map (fun hp => (hp.1, hp.2, port)))

/-- `BollingerBandJohansenStrategy.__init__`: store the thresholds and start
date, run the basket selection, and clear both position flags. -/
def bbInit (env : Env) (enter exit : ℚ) (start_date : ℕ) : Except PyErr BBState :=
  match findStationaryPortfolio env with
  | .error e => .error e
  | .ok (hedge, pp, port) =>
    .ok { enter := enter, exit := exit, current_date := start_date,
          symbol_list := port, hedge_ratio := hedge,
          long := false, short := false, portfolio_prices := pp }

/-- The member loop of `_current_portfolio_price`.  Python walks
`enumerate(self.symbol_list)` and reads/writes `self.hedge_ratio[i]`
sequentially, so the hedge vector is carried as a processed prefix `doneH`
and an unprocessed suffix `todoH` (an exhausted suffix is the `IndexError`
of an out-of-range `hedge_ratio[i]`).  Per member: fetch the latest bar
(`IndexError` on an empty sequence, `TypeError` on a `None` bar), store its
date, multiply the stored weight by `adjFactor` (a zero close raises
`ZeroDivisionError`), and append the bar's price. -/
def cppLoop (latest : Sym → List (Option Bar)) (priceType : Bar → ℚ) :
    List Sym → List ℚ → List ℚ → ℕ → List ℚ →
    Except PyErr (List ℚ × ℕ × List ℚ)
  | [], doneH, todoH, d, prices => .ok (doneH ++ todoH, d, prices)
  | s :: rest, doneH, todoH, _d, prices =>
    match latest s with
    | [] => .error .indexError
    | none :: _ => .error .typeError
    | some bar :: _ =>
      if bar.Close = 0 then .error .zeroDivisionError
      else
        match todoH with
        | [] => .error .indexError
        | w :: todo =>
          cppLoop latest priceType rest (doneH ++ [w * adjFactor bar]) todo
            bar.Date (prices ++ [priceType bar])

/-- `BollingerBandJohansenStrategy._current_portfolio_price`: run the member
loop from an empty processed prefix and return
`dot(prices, self.hedge_ratio)` together with the mutated state
(adjusted hedge vector, updated `current_date`). -/
def currentPortfolioPrice (latest : Sym → List (Option Bar)) (priceType : Bar → ℚ)
    (st : BBState) : Except PyErr (ℚ × BBState) :=
  match cppLoop latest priceType st.symbol_list [] st.hedge_ratio st.current_date [] with
  | .error e => .error e
  | .ok (hedge, d, prices) =>
    .ok (dotQ prices hedge, { st with hedge_ratio := hedge, current_date := d })

/-- `BollingerBandJohansenStrategy._order_portfolio`: one `SignalEvent` per
basket member, in member order, with strength `self.hedge_ratio[i]`; the
hedge vector is walked as a suffix exactly as in `cppLoop`. -/
def orderPortfolio (latest : Sym → List (Option Bar)) (dir : Direction) :
    List Sym → List ℚ → Except PyErr (List SignalEvent)
  | [], _ => .ok []
  | s :: rest, hedge =>
    match latest s with
    | [] => .error .indexError
    | none :: _ => .error .typeError
    | some bar :: _ =>
      match hedge with
      | [] => .error .indexError
      | w :: hrest =>
        match orderPortfolio latest dir rest hrest with
        | .error e => .error e
        | .ok sigs => .ok (SignalEvent.mk bar.Symbol bar.Date dir w :: sigs)

/-- Lines 189–200 of `calculate_signals`: the four-way `if`/`elif` ladder on
the z-score, with `d = price − mean` and `v` the sample variance (so the
source's `zscore >= self.exit` is `zcmpGE d v exit`, etc.).  Returns the
directive to emit (if any) and the new `(long, short)` flags. -/
def bbDecide (enter exit : ℚ) (long short : Bool) (d v : ℚ) :
    Option Direction × Bool × Bool :=
  if long && zcmpGE d v exit then (some .EXIT, false, short)
  else if short && zcmpLE d v (-exit) then (some .EXIT, long, false)
  else if !short && zcmpGE d v enter then (some .SHORT, long, true)
  else if !long && zcmpLE d v (-enter) then (some .LONG, true, short)
  else (none, long, short)

/-- `BollingerBandJohansenStrategy.calculate_signals`.  On a `MARKET` event:
recompute the synthetic price (mutating hedge vector and date), append it to
the series, and test stationarity.  On success, `mean`/`stdev` of the series
(`StatisticsError` below 2 observations, `ZeroDivisionError` on zero standard
deviation), then the `bbDecide` ladder, emitting one signal per member via
`_order_portfolio` when a branch fires.  On failure, emit `EXIT` for every
member and install the result of a fresh `_find_stationary_portfolio`
(hedge vector, training synthetic series, and — through
`update_symbol_list` — the active basket). -/
def bbCalculateSignals (env : Env) (ev : EType) (st : BBState) :
    Except PyErr (List SignalEvent × BBState) :=
  if ev = .MARKET then
    match currentPortfolioPrice env.latest (fun b => b.Close) st with
    | .error e => .error e
    | .ok (price, st₁) =>
      let pp := st₁.portfolio_prices ++ [price]
      let st₂ := { st₁ with portfolio_prices := pp }
      if env.isStat pp then
        if pp.length < 2 then .error .statisticsError
        else if pyvariance pp = 0 then .error .zeroDivisionError
        else
          match bbDecide st₂.enter st₂.exit st₂.long st₂.short
              (price - pymean pp) (pyvariance pp) with
          | (none, l, s) => .ok ([], { st₂ with long := l, short := s })
          | (some dir, l, s) =>
            match orderPortfolio env.latest dir st₂.symbol_list st₂.hedge_ratio with
            | .error e => .error e
            | .ok sigs => .ok (sigs, { st₂ with long := l, short := s })
      else
        match orderPortfolio env.latest .EXIT st₂.symbol_list st₂.hedge_ratio with
        | .error e => .error e
        | .ok sigs =>
          match findStationaryPortfolio env with
          | .error e => .error e
          | .ok (hedge, pp₂, port) =>
            .ok (sigs, { st₂ with
                         hedge_ratio := hedge
                         portfolio_prices := pp₂
                         symbol_list := port })
  else .ok ([], st)

/-- A strategy state reachable from `st₀` by a sequence of processed market
updates (each with its own external environment and event; an update that
raises has no successor). -/
inductive Reach : BBState → BBState → Prop where
  | refl (st : BBState) : Reach st st
  | step {st₀ st₁ st₂ : BBState} (env : Env) (ev : EType) (sigs : List SignalEvent) :
      Reach st₀ st₁ → bbCalculateSignals env ev st₁ = .ok (sigs, st₂) → Reach st₀ st₂

/-! ## Concrete fixtures for counterexamples and witnesses -/

/-- Bar constructor shorthand: symbol, date, close, dividend, split. -/
def mkBar (s : Sym) (date : ℕ) (c dv sp : ℚ) : Bar :=
  { Symbol := s, Date := date, Close := c, Dividend := dv, Split := sp }

/-- A neutral bar: close 1, no dividend, split 1 (corporate-action factor 1). -/
def flatBar (s : Sym) : Bar := mkBar s 1 1 0 1

/-- Environment with a 12-ticker universe, a cointegration routine that
always fails, an always-true stationarity oracle, and neutral bars. -/
def envA : Env :=
  { sortOldest := List.range 12
    trainSet := fun _ => []
    gen := fun _ => .error ()
    isStat := fun _ => true
    latest := fun s => [some (flatBar s)] }

/-- Flat start state with `enterThreshold = 0 ≤ exitThreshold = 1` (both
non-negative), basket `0..11`, hedge vector `[1,0,…,0]`, series `[0,2]`. -/
def stFlat : BBState :=
  { enter := 0, exit := 1, current_date := 0, symbol_list := List.range 12
    hedge_ratio := 1 :: List.replicate 11 0, long := false, short := false
    portfolio_prices := [0, 2] }

/-- Signals of the first update on `stFlat` under `envA`: `SHORT` for every
member, strength = that member's hedge-ratio entry. -/
def sigsC3a : List SignalEvent :=
  (List.range 12).map (fun i => SignalEvent.mk i 1 .SHORT (if i = 0 then 1 else 0))

/-- Signals of the second update: `LONG` for every member. -/
def sigsC3b : List SignalEvent :=
  (List.range 12).map (fun i => SignalEvent.mk i 1 .LONG (if i = 0 then 1 else 0))

/-- State after the first update on `stFlat` under `envA` (entered Short). -/
def stC3mid : BBState :=
  { enter := 0, exit := 1, current_date := 1, symbol_list := List.range 12
    hedge_ratio := 1 :: List.replicate 11 0, long := false, short := true
    portfolio_prices := [0, 2, 1] }

/-- State after the second update: both flags set. -/
def stC3end : BBState :=
  { enter := 0, exit := 1, current_date := 1, symbol_list := List.range 12
    hedge_ratio := 1 :: List.replicate 11 0, long := true, short := true
    portfolio_prices := [0, 2, 1, 1] }

/-- Environment whose stationarity oracle accepts only series of length ≤ 2:
the training synthetic series `[0,2]` passes, the running series fails as
soon as one live bar is appended — forcing the decoherence branch while the
re-selection still succeeds.  The cointegration routine returns an all-ones
weight vector sized to its input and statistics that always pass. -/
def envD : Env :=
  { sortOldest := List.range 12
    trainSet := fun _ => [0 :: List.replicate 11 0, 2 :: List.replicate 11 0]
    gen := fun m => .ok { evec0 := List.replicate (numCols m) 1,
                          lr1_0 := 1, lr2_0 := 1, cvt0_last := 0, cvm0_last := 0 }
    isStat := fun l => decide (l.length ≤ 2)
    latest := fun s => [some (mkBar s 7 1 0 1)] }

/-- A state holding an open Long position when decoherence hits. -/
def stOpen : BBState :=
  { enter := 2, exit := 1/2, current_date := 0, symbol_list := List.range 12
    hedge_ratio := 1 :: List.replicate 11 0, long := true, short := false
    portfolio_prices := [0, 2] }

/-- Environment whose provider really serves a training matrix with one
column per requested member (`numCols (trainSet p) = p.length` for every
candidate), and whose cointegration routine returns one weight per column. -/
def envW6 : Env :=
  { sortOldest := List.range 12
    trainSet := fun p => [List.replicate p.length 1]
    gen := fun m => .ok { evec0 := List.replicate (numCols m) 1,
                          lr1_0 := 1, lr2_0 := 1, cvt0_last := 0, cvm0_last := 0 }
    isStat := fun _ => true
    latest := fun _ => [] }

/-- A bar with split 2, dividend 0, close 50: corporate-action factor 2. -/
def bar50 : Bar := mkBar 0 3 50 0 2

/-- Single-member state with hedge weight 3 (for the compounding example). -/
def stOne : BBState :=
  { enter := 0, exit := 0, current_date := 0, symbol_list := [0]
    hedge_ratio := [3], long := false, short := false, portfolio_prices := [] }

/-- A bar whose corporate-action factor cancels to 1 although the dividend is
nonzero and the split is not 1: `(1/2) * (1 + 1) / 1 = 1`. -/
def barDiv : Bar := mkBar 0 9 1 1 (1/2)

/-- The bars served by `envC10`: member 0 gets `barDiv`, the rest neutral. -/
def barsC10 : Sym → Bar :=
  fun s => if s = 0 then barDiv else mkBar s 9 1 0 1

/-- Environment serving `barsC10`, always-true stationarity oracle. -/
def envC10 : Env :=
  { sortOldest := List.range 12
    trainSet := fun _ => []
    gen := fun _ => .error ()
    isStat := fun _ => true
    latest := fun s => [some (barsC10 s)] }

/-- Flat state with hysteresis thresholds `enter = 2 > exit = 1/2`; the next
`envC10` update computes z-score 0 and takes the no-action branch. -/
def stC10 : BBState :=
  { enter := 2, exit := 1/2, current_date := 0, symbol_list := List.range 12
    hedge_ratio := 1 :: List.replicate 11 0, long := false, short := false
    portfolio_prices := [0, 2] }

/-- `stC10` after the no-action update: series grew by one, date updated,
hedge vector numerically unchanged (every factor is 1). -/
def stC10after : BBState :=
  { enter := 2, exit := 1/2, current_date := 9, symbol_list := List.range 12
    hedge_ratio := 1 :: List.replicate 11 0, long := false, short := false
    portfolio_prices := [0, 2, 1] }

/-- State whose series is `[1]`: the next `envA` update appends another 1,
giving two equal observations and a zero sample standard deviation. -/
def stVar : BBState :=
  { enter := 0, exit := 1, current_date := 0, symbol_list := List.range 12
    hedge_ratio := 1 :: List.replicate 11 0, long := false, short := false
    portfolio_prices := [1] }

/-- `stOpen` after `_current_portfolio_price` under `envD` (date moved to 7,
neutral factors leave the hedge vector unchanged). -/
def stOpenMid : BBState :=
  { enter := 2, exit := 1/2, current_date := 7, symbol_list := List.range 12
    hedge_ratio := 1 :: List.replicate 11 0, long := true, short := false
    portfolio_prices := [0, 2] }

/-- `stVar` after `_current_portfolio_price` under `envA`. -/
def stVarMid : BBState :=
  { enter := 0, exit := 1, current_date := 1, symbol_list := List.range 12
    hedge_ratio := 1 :: List.replicate 11 0, long := false, short := false
    portfolio_prices := [1] }

/-- Latest-bars provider that always serves `bar50`. -/
def latest50 : Sym → List (Option Bar) := fun _ => [some bar50]

/-- `stOne` after one `bar50` update: the stored weight 3 doubled to 6. -/
def stOneA : BBState :=
  { enter := 0, exit := 0, current_date := 3, symbol_list := [0]
    hedge_ratio := [6], long := false, short := false, portfolio_prices := [] }

/-- `stOneA` after another `bar50` update: the weight doubled again to 12. -/
def stOneB : BBState :=
  { enter := 0, exit := 0, current_date := 3, symbol_list := [0]
    hedge_ratio := [12], long := false, short := false, portfolio_prices := [] }

/-- `stC10` after `_current_portfolio_price` under `envC10` (date moved to 9,
every corporate-action factor equal to 1). -/
def stC10mid : BBState :=
  { enter := 2, exit := 1/2, current_date := 9, symbol_list := List.range 12
    hedge_ratio := 1 :: List.replicate 11 0, long := false, short := false
    portfolio_prices := [0, 2] }

/-! ## z-score comparison lemmas

`zcmpGE d v t` / `zcmpLE d v t` are the decidable forms through which the
embedding evaluates the source's comparisons `zscore >= t` / `zscore <= t`
with `zscore = d / stdev` and `stdev = √v`.  The two `iff_real` lemmas prove
them equivalent to the real-number comparisons whenever the variance is
positive — exactly the situation in which the source reaches the comparison
(it has already raised `ZeroDivisionError` otherwise). -/

theorem zcmpGE_iff_real (d v t : ℚ) (hv : 0 < v) :
    zcmpGE d v t = true ↔ (t : ℝ) ≤ (d : ℝ) / Real.sqrt (v : ℝ) := by
  have hv' : (0 : ℝ) < (v : ℝ) := by exact_mod_cast hv
  have hs : 0 < Real.sqrt (v : ℝ) := Real.sqrt_pos.2 hv'
  have hsq : Real.sqrt (v : ℝ) ^ 2 = (v : ℝ) := Real.sq_sqrt hv'.le
  rw [le_div_iff hs]
  unfold zcmpGE
  split
  · rename_i ht
    have ht' : (0 : ℝ) < (t : ℝ) := by exact_mod_cast ht
    simp only [Bool.and_eq_true, decide_eq_true_eq]
    constructor
    · rintro ⟨hd, hq⟩
      have hd' : (0 : ℝ) ≤ (d : ℝ) := by exact_mod_cast hd
      have hq' : ((t : ℝ) * Real.sqrt v) ^ 2 ≤ (d : ℝ) ^ 2 := by
        rw [mul_pow, hsq]; exact_mod_cast hq
      have h1 := Real.sqrt_le_sqrt hq'
      rwa [Real.sqrt_sq (mul_pos ht' hs).le, Real.sqrt_sq hd'] at h1
    · intro hle
      have hd' : (0 : ℝ) ≤ (d : ℝ) := le_trans (mul_pos ht' hs).le hle
      have hq' := pow_le_pow_left (mul_pos ht' hs).le hle 2
      rw [mul_pow, hsq] at hq'
      exact ⟨by exact_mod_cast hd', by exact_mod_cast hq'⟩
  · rename_i ht
    have ht' : (t : ℝ) ≤ 0 := by
      have h0 : ¬ (0 : ℚ) < t := ht
      exact_mod_cast not_lt.mp h0
    simp only [Bool.or_eq_true, decide_eq_true_eq]
    constructor
    · rintro (hd | hq)
      · have hd' : (0 : ℝ) ≤ (d : ℝ) := by exact_mod_cast hd
        exact le_trans (mul_nonpos_of_nonpos_of_nonneg ht' hs.le) hd'
      · rcases le_or_lt 0 ((d : ℝ)) with hd' | hd'
        · exact le_trans (mul_nonpos_of_nonpos_of_nonneg ht' hs.le) hd'
        · have hq' : (-(d : ℝ)) ^ 2 ≤ (-(t : ℝ) * Real.sqrt v) ^ 2 := by
            rw [mul_pow, hsq, neg_sq, neg_sq]; exact_mod_cast hq
          have h1 := Real.sqrt_le_sqrt hq'
          rw [Real.sqrt_sq (by linarith), Real.sqrt_sq
            (mul_nonneg (by linarith) hs.le)] at h1
          linarith
    · intro hle
      rcases le_or_lt 0 d with hd | hd
      · exact Or.inl hd
      · refine Or.inr ?_
        have hd' : (d : ℝ) < 0 := by exact_mod_cast hd
        have h2 : -(d : ℝ) ≤ -(t : ℝ) * Real.sqrt v := by linarith
        have hq' := pow_le_pow_left (by linarith : (0 : ℝ) ≤ -(d : ℝ)) h2 2
        rw [mul_pow, hsq, neg_sq, neg_sq] at hq'
        exact_mod_cast hq'

theorem zcmpLE_iff_real (d v t : ℚ) (hv : 0 < v) :
    zcmpLE d v t = true ↔ (d : ℝ) / Real.sqrt (v : ℝ) ≤ (t : ℝ) := by
  unfold zcmpLE
  rw [zcmpGE_iff_real (-d) v (-t) hv]
  push_cast
  rw [neg_div]
  constructor
  · intro h; linarith
  · intro h; linarith

/-- `zcmpGE` is antitone in the threshold (for a nonnegative variance):
a z-score at least `t` is also at least any `t' ≤ t`. -/
theorem zcmpGE_mono (d v t t' : ℚ) (hv : 0 ≤ v) (htt : t' ≤ t)
    (h : zcmpGE d v t = true) : zcmpGE d v t' = true := by
  unfold zcmpGE at h ⊢
  split at h <;> split
  · rename_i ht ht'
    simp only [Bool.and_eq_true, decide_eq_true_eq] at h ⊢
    refine ⟨h.1, le_trans ?_ h.2⟩
    have : t' ^ 2 ≤ t ^ 2 := pow_le_pow_left ht'.le htt 2
    exact mul_le_mul_of_nonneg_right this hv
  · rename_i ht ht'
    simp only [Bool.and_eq_true, decide_eq_true_eq] at h
    simp only [Bool.or_eq_true, decide_eq_true_eq]
    exact Or.inl h.1
  · rename_i ht ht'
    exact absurd (lt_of_lt_of_le ht' (le_trans htt (not_lt.mp ht))) (lt_irrefl 0)
  · rename_i ht ht'
    simp only [Bool.or_eq_true, decide_eq_true_eq] at h ⊢
    rcases h with hd | hq
    · exact Or.inl hd
    · refine Or.inr (le_trans hq ?_)
      have h1 : t ^ 2 ≤ t' ^ 2 := by
        have := pow_le_pow_left (neg_nonneg.2 (not_lt.mp ht)) (neg_le_neg htt) 2
        simpa using this
      exact mul_le_mul_of_nonneg_right h1 hv

/-- `zcmpLE` is monotone in the threshold. -/
theorem zcmpLE_mono (d v t t' : ℚ) (hv : 0 ≤ v) (htt : t ≤ t')
    (h : zcmpLE d v t = true) : zcmpLE d v t' = true :=
  zcmpGE_mono (-d) v (-t) (-t') hv (neg_le_neg htt) h

/-- The sample variance of a series with at least two observations is
nonnegative. -/
theorem pyvariance_nonneg (xs : List ℚ) (h2 : 2 ≤ xs.length) :
    0 ≤ pyvariance xs := by
  unfold pyvariance
  apply div_nonneg
  · apply List.sum_nonneg
    intro x hx
    obtain ⟨a, _, rfl⟩ := List.mem_map.mp hx
    exact sq_nonneg _
  · have : (2 : ℚ) ≤ (xs.length : ℚ) := by exact_mod_cast h2
    linarith

/-! ## State-machine ladder lemmas -/

/-- When no branch of the ladder fires, the position flags are unchanged. -/
theorem bbDecide_none (e x : ℚ) (lg sh : Bool) (d v : ℚ) (l s : Bool)
    (h : bbDecide e x lg sh d v = (none, l, s)) : l = lg ∧ s = sh := by
  unfold bbDecide at h
  split_ifs at h <;> simp_all

/-- With `exit ≤ enter` (the hysteresis configuration) and a nonnegative
variance, one ladder step never produces both flags set. -/
theorem bbDecide_inv (e x : ℚ) (lg sh : Bool) (d v : ℚ) (r : Option Direction)
    (l s : Bool) (hx : x ≤ e) (hv : 0 ≤ v)
    (hcons : ¬(lg = true ∧ sh = true))
    (h : bbDecide e x lg sh d v = (r, l, s)) : ¬(l = true ∧ s = true) := by
  unfold bbDecide at h
  split_ifs at h with h1 h2 h3 h4
  · simp only [Prod.mk.injEq] at h
    rcases h with ⟨-, hl, -⟩
    simp [← hl]
  · simp_all
  · -- Short-entry fired: Long-exit did not, so the Long flag must be off.
    rw [Bool.and_eq_true, Bool.not_eq_true'] at h3
    cases hlg : lg with
    | false => simp_all
    | true =>
      exfalso
      apply h1
      rw [hlg, Bool.true_and]
      exact zcmpGE_mono d v e x hv hx h3.2
  · -- Long-entry fired: Short-exit did not, so the Short flag must be off.
    rw [Bool.and_eq_true, Bool.not_eq_true'] at h4
    cases hsh : sh with
    | false => simp_all
    | true =>
      exfalso
      apply h2
      rw [hsh, Bool.true_and]
      exact zcmpLE_mono d v (-e) (-x) hv (by linarith) h4.2
  · simp_all

/-! ## Combination-enumeration lemmas -/

/-- Every enumerated candidate has exactly `k` members. -/
theorem combinations_length {α : Type} :
    ∀ (k : ℕ) (xs : List α), ∀ c ∈ combinations k xs, c.length = k := by
  intro k xs
  induction xs generalizing k with
  | nil =>
    intro c hc
    cases k with
    | zero => simp only [combinations, List.mem_singleton] at hc; subst hc; rfl
    | succ n => simp [combinations] at hc
  | cons x xs ih =>
    intro c hc
    cases k with
    | zero => simp only [combinations, List.mem_singleton] at hc; subst hc; rfl
    | succ n =>
      simp only [combinations, List.mem_append, List.mem_map] at hc
      rcases hc with ⟨a, ha, rfl⟩ | hc
      · simp [ih n a ha]
      · exact ih (n + 1) c hc

/-- Every enumerated candidate is a subsequence of the universe. -/
theorem combinations_sublist {α : Type} :
    ∀ (k : ℕ) (xs : List α), ∀ c ∈ combinations k xs, c.Sublist xs := by
  intro k xs
  induction xs generalizing k with
  | nil =>
    intro c hc
    cases k with
    | zero => simp only [combinations, List.mem_singleton] at hc; subst hc; rfl
    | succ n => simp [combinations] at hc
  | cons x xs ih =>
    intro c hc
    cases k with
    | zero =>
      simp only [combinations, List.mem_singleton] at hc; subst hc
      exact List.nil_sublist _
    | succ n =>
      simp only [combinations, List.mem_append, List.mem_map] at hc
      rcases hc with ⟨a, ha, rfl⟩ | hc
      · exact List.Sublist.cons₂ x (ih n a ha)
      · exact List.Sublist.cons x (ih (n + 1) c hc)

/-- Over a strictly increasing universe (e.g. tickers renamed to their
positions in the oldest-first ordering), the enumeration is strictly
increasing for the lexicographic order — the order of standard combination
generation. -/
theorem combinations_pairwise_lex :
    ∀ (k : ℕ) (xs : List Sym), xs.Pairwise (· < ·) →
      (combinations k xs).Pairwise (fun a b => List.Lex (· < ·) a b) := by
  intro k xs
  induction xs generalizing k with
  | nil => intro _; cases k <;> simp [combinations]
  | cons x xs ih =>
    intro hp
    cases k with
    | zero => simp [combinations]
    | succ n =>
      have hx : ∀ y ∈ xs, x < y := (List.pairwise_cons.mp hp).1
      have hxs := (List.pairwise_cons.mp hp).2
      simp only [combinations]
      rw [List.pairwise_append]
      refine ⟨?_, ih (n + 1) hxs, ?_⟩
      · rw [List.pairwise_map]
        exact (ih n hxs).imp (fun h => List.Lex.cons h)
      · intro a ha b hb
        obtain ⟨a0, _, rfl⟩ := List.mem_map.mp ha
        have hb1 : b.length = n + 1 := combinations_length (n + 1) xs b hb
        cases b with
        | nil => simp at hb1
        | cons y b2 =>
          have hy : y ∈ xs :=
            (combinations_sublist (n + 1) xs _ hb).subset (List.mem_cons_self y b2)
          exact List.Lex.rel (hx y hy)

/-! ## Basket-selector lemmas -/

/-- If every candidate is rejected, the search ends in the fatal exit. -/
theorem findStatAux_all_reject (env : Env) :
    ∀ L : List (List Sym), (∀ p ∈ L, acceptCandidate env p = none) →
      findStatAux env L = .error .systemExit := by
  intro L h
  induction L with
  | nil => rfl
  | cons p rest ih =>
    simp only [findStatAux, h p (List.mem_cons_self p rest)]
    exact ih (fun q hq => h q (List.mem_cons_of_mem p hq))

/-- A successful search returns an enumerated, accepted candidate. -/
theorem findStatAux_ok (env : Env) :
    ∀ (L : List (List Sym)) (h : List ℚ) (pp : List ℚ) (port : List Sym),
      findStatAux env L = .ok (h, pp, port) →
      port ∈ L ∧ acceptCandidate env port = some (h, pp) := by
  intro L
  induction L with
  | nil => intro h pp port hfind; cases hfind
  | cons p rest ih =>
    intro h pp port hfind
    simp only [findStatAux] at hfind
    cases hacc : acceptCandidate env p with
    | none =>
      rw [hacc] at hfind
      obtain ⟨hmem, hok⟩ := ih h pp port hfind
      exact ⟨List.mem_cons_of_mem p hmem, hok⟩
    | some hp =>
      rw [hacc] at hfind
      obtain ⟨h1, h2, h3⟩ : h = hp.1 ∧ pp = hp.2 ∧ port = p := by
        injection hfind with hf
        injection hf with hf1 hf2
        injection hf2 with hf2 hf3
        exact ⟨hf1.symm, hf2.symm, hf3.symm⟩
      subst h1; subst h2; subst h3
      exact ⟨List.mem_cons_self _ _, by rw [hacc]⟩

/-- The search loop equals the spec-side first-accept over the candidate
list. -/
theorem findStatAux_eq_findSome (env : Env) :
    ∀ L : List (List Sym),
      findStatAux env L =
        (match L.findSome? (fun port =>
            (acceptCandidate env port).map (fun hp => (hp.1, hp.2, port))) with
         | some r => .ok r
         | none => .error .systemExit) := by
  intro L
  induction L with
  | nil => rfl
  | cons p rest ih =>
    simp only [findStatAux, List.findSome?_cons]
    cases hacc : acceptCandidate env p with
    | none => simpa using ih
    | some hp => rfl

/-! ## Member-loop characterizations -/

/-- Characterization of the `_current_portfolio_price` loop when every member
has a latest bar (given by `bars`) with a nonzero close and the hedge vector
covers all members: each processed weight is multiplied by its member's
corporate-action factor, the date becomes the last member's bar date, and the
members' prices are appended in order. -/
theorem cppLoop_spec (latest : Sym → List (Option Bar)) (pt : Bar → ℚ) (bars : Sym → Bar) :
    ∀ (syms : List Sym) (doneH todoH : List ℚ) (d : ℕ) (prices : List ℚ),
      (∀ s ∈ syms, (latest s).head? = some (some (bars s))) →
      (∀ s ∈ syms, (bars s).Close ≠ 0) →
      syms.length ≤ todoH.length →
      cppLoop latest pt syms doneH todoH d prices =
        .ok (doneH ++ (List.zipWith (fun s w => w * adjFactor (bars s)) syms todoH
              ++ todoH.drop syms.length),
             (syms.map (fun s => (bars s).Date)).foldl (fun _ n => n) d,
             prices ++ syms.map (fun s => pt (bars s))) := by
  intro syms
  induction syms with
  | nil => intro doneH todoH d prices _ _ _; simp [cppLoop]
  | cons s rest ih =>
    intro doneH todoH d prices hb hc hl
    have hhead := hb s (List.mem_cons_self s rest)
    cases hls : latest s with
    | nil => rw [hls] at hhead; cases hhead
    | cons b tl =>
      rw [hls] at hhead
      have hbb : b = some (bars s) := by
        simpa using hhead
      subst hbb
      cases todoH with
      | nil => simp at hl
      | cons w todo =>
        simp only [cppLoop, hls]
        rw [if_neg (hc s (List.mem_cons_self s rest))]
        rw [ih (doneH ++ [w * adjFactor (bars s)]) todo (bars s).Date
          (prices ++ [pt (bars s)])
          (fun q hq => hb q (List.mem_cons_of_mem s hq))
          (fun q hq => hc q (List.mem_cons_of_mem s hq))
          (by simpa using Nat.succ_le_succ_iff.mp hl)]
        simp [List.append_assoc]

/-- Frame lemma: `_current_portfolio_price` only mutates the hedge vector and
the current date. -/
theorem currentPortfolioPrice_frame (latest : Sym → List (Option Bar)) (pt : Bar → ℚ)
    (st : BBState) (p : ℚ) (st₁ : BBState)
    (h : currentPortfolioPrice latest pt st = .ok (p, st₁)) :
    st₁.long = st.long ∧ st₁.short = st.short ∧ st₁.enter = st.enter ∧
      st₁.exit = st.exit ∧ st₁.portfolio_prices = st.portfolio_prices ∧
      st₁.symbol_list = st.symbol_list := by
  unfold currentPortfolioPrice at h
  cases hcl : cppLoop latest pt st.symbol_list [] st.hedge_ratio st.current_date [] with
  | error e => rw [hcl] at h; cases h
  | ok r =>
    obtain ⟨hedge, d, prices⟩ := r
    rw [hcl] at h
    injection h with h
    injection h with h1 h2
    subst h2
    simp

/-- `_current_portfolio_price` under good bars: the full characterization of
the returned price and mutated state. -/
theorem currentPortfolioPrice_spec (latest : Sym → List (Option Bar)) (pt : Bar → ℚ)
    (bars : Sym → Bar) (st : BBState)
    (hb : ∀ s ∈ st.symbol_list, (latest s).head? = some (some (bars s)))
    (hc : ∀ s ∈ st.symbol_list, (bars s).Close ≠ 0)
    (hl : st.symbol_list.length ≤ st.hedge_ratio.length) :
    currentPortfolioPrice latest pt st =
      .ok (dotQ (st.symbol_list.map (fun s => pt (bars s)))
             (List.zipWith (fun s w => w * adjFactor (bars s)) st.symbol_list st.hedge_ratio
               ++ st.hedge_ratio.drop st.symbol_list.length),
           { st with
             hedge_ratio :=
               List.zipWith (fun s w => w * adjFactor (bars s)) st.symbol_list st.hedge_ratio
                 ++ st.hedge_ratio.drop st.symbol_list.length
             current_date :=
               (st.symbol_list.map (fun s => (bars s).Date)).foldl (fun _ n => n)
                 st.current_date }) := by
  unfold currentPortfolioPrice
  rw [cppLoop_spec latest pt bars st.symbol_list [] st.hedge_ratio st.current_date [] hb hc hl]
  simp

/-- `_order_portfolio` under good bars: one signal per member, in member
order, with the member's stored weight as strength. -/
theorem orderPortfolio_spec (latest : Sym → List (Option Bar)) (dir : Direction)
    (bars : Sym → Bar) :
    ∀ (syms : List Sym) (hedge : List ℚ),
      (∀ s ∈ syms, (latest s).head? = some (some (bars s))) →
      syms.length ≤ hedge.length →
      orderPortfolio latest dir syms hedge =
        .ok (List.zipWith (fun s w => SignalEvent.mk (bars s).Symbol (bars s).Date dir w)
              syms hedge) := by
  intro syms
  induction syms with
  | nil => intro hedge _ _; simp [orderPortfolio]
  | cons s rest ih =>
    intro hedge hb hl
    have hhead := hb s (List.mem_cons_self s rest)
    cases hls : latest s with
    | nil => rw [hls] at hhead; cases hhead
    | cons b tl =>
      rw [hls] at hhead
      have hbb : b = some (bars s) := by simpa using hhead
      subst hbb
      cases hedge with
      | nil => simp at hl
      | cons w hrest =>
        simp only [orderPortfolio, hls]
        rw [ih hrest (fun q hq => hb q (List.mem_cons_of_mem s hq))
          (by simpa using Nat.succ_le_succ_iff.mp hl)]
        simp

/-- The baseline loop cannot raise when every symbol's bar sequence is
nonempty. -/
theorem bhLoop_ok (latest : Sym → List (Option Bar)) :
    ∀ (syms : List Sym) (bought : Sym → Bool),
      (∀ s ∈ syms, latest s ≠ []) →
      ∃ r, bhLoop latest bought syms = .ok r := by
  intro syms
  induction syms with
  | nil => intro bought _; exact ⟨([], bought), rfl⟩
  | cons s rest ih =>
    intro bought hne
    cases hls : latest s with
    | nil => exact absurd hls (hne s (List.mem_cons_self s rest))
    | cons b tl =>
      have hrest : ∀ q ∈ rest, latest q ≠ [] :=
        fun q hq => hne q (List.mem_cons_of_mem s hq)
      cases b with
      | none =>
        obtain ⟨r, hr⟩ := ih bought hrest
        exact ⟨r, by simp only [bhLoop, hls]; exact hr⟩
      | some bar =>
        by_cases hbt : bought s = true
        · obtain ⟨r, hr⟩ := ih bought hrest
          exact ⟨r, by simp only [bhLoop, hls, hbt, if_true]; exact hr⟩
        · obtain ⟨⟨sigs, bgt⟩, hr⟩ := ih (fun x => if x = s then true else bought x) hrest
          refine ⟨(SignalEvent.mk bar.Symbol bar.Date .LONG 1 :: sigs, bgt), ?_⟩
          simp only [bhLoop, hls]
          rw [if_neg hbt, hr]

/-! ## Per-update step lemmas for the basket strategy -/

/-- The decoherence branch: when the appended series fails the stationarity
test, the update emits the `EXIT` batch, installs the selector's result
(hedge vector, training series, new basket) and leaves everything else —
including both position flags — untouched. -/
theorem bb_step_decohere (env : Env) (st : BBState) (price : ℚ) (st₁ : BBState)
    (sigs : List SignalEvent) (hedge pp₂ : List ℚ) (port : List Sym)
    (h1 : currentPortfolioPrice env.latest (fun b => b.Close) st = .ok (price, st₁))
    (h2 : env.isStat (st₁.portfolio_prices ++ [price]) = false)
    (h3 : orderPortfolio env.latest .EXIT st₁.symbol_list st₁.hedge_ratio = .ok sigs)
    (h4 : findStationaryPortfolio env = .ok (hedge, pp₂, port)) :
    bbCalculateSignals env .MARKET st =
      .ok (sigs, { st₁ with
                   hedge_ratio := hedge
                   portfolio_prices := pp₂
                   symbol_list := port }) := by
  unfold bbCalculateSignals
  rw [if_pos rfl, h1]
  simp only [h2, Bool.false_eq_true, if_false, h3, h4]

/-- The no-action branch: guards pass, no ladder branch fires — the update
returns no signals and only the series append (and the
`_current_portfolio_price` mutations already inside `st₁`) happen. -/
theorem bb_step_noaction (env : Env) (st : BBState) (price : ℚ) (st₁ : BBState)
    (h1 : currentPortfolioPrice env.latest (fun b => b.Close) st = .ok (price, st₁))
    (h2 : env.isStat (st₁.portfolio_prices ++ [price]) = true)
    (hlen : ¬ (st₁.portfolio_prices ++ [price]).length < 2)
    (hv : ¬ pyvariance (st₁.portfolio_prices ++ [price]) = 0)
    (hbd : (bbDecide st₁.enter st₁.exit st₁.long st₁.short
        (price - pymean (st₁.portfolio_prices ++ [price]))
        (pyvariance (st₁.portfolio_prices ++ [price]))).1 = none) :
    bbCalculateSignals env .MARKET st =
      .ok ([], { st₁ with portfolio_prices := st₁.portfolio_prices ++ [price] }) := by
  unfold bbCalculateSignals
  rw [if_pos rfl, h1]
  simp only [h2, if_true, if_neg hlen, if_neg hv]
  rcases hb2 : bbDecide st₁.enter st₁.exit st₁.long st₁.short
      (price - pymean (st₁.portfolio_prices ++ [price]))
      (pyvariance (st₁.portfolio_prices ++ [price])) with ⟨r, l, s⟩
  rw [hb2] at hbd
  obtain rfl : r = none := hbd
  obtain ⟨rfl, rfl⟩ := bbDecide_none _ _ _ _ _ _ _ _ hb2
  rfl

/-- On any successfully processed stationary update, the series is exactly
the previous series with the new synthetic price appended. -/
theorem bb_step_growth (env : Env) (st : BBState) (sigs : List SignalEvent)
    (st₂ : BBState) (price : ℚ) (st₁ : BBState)
    (h1 : currentPortfolioPrice env.latest (fun b => b.Close) st = .ok (price, st₁))
    (h2 : env.isStat (st₁.portfolio_prices ++ [price]) = true)
    (h : bbCalculateSignals env .MARKET st = .ok (sigs, st₂)) :
    st₂.portfolio_prices = st.portfolio_prices ++ [price] := by
  have hfr := currentPortfolioPrice_frame _ _ _ _ _ h1
  unfold bbCalculateSignals at h
  rw [if_pos rfl, h1] at h
  simp only [h2, if_true] at h
  split at h
  · cases h
  · split at h
    · cases h
    · split at h
      · injection h with h
        injection h with hsig hst
        rw [← hst, hfr.2.2.2.2.1]
      · split at h
        · cases h
        · injection h with h
          injection h with hsig hst
          rw [← hst, hfr.2.2.2.2.1]

/-- One processed update preserves the thresholds and — in the hysteresis
configuration `exit ≤ enter` — the at-most-one-position invariant. -/
theorem bb_step_inv (env : Env) (ev : EType) (st : BBState) (sigs : List SignalEvent)
    (st₂ : BBState) (hex : st.exit ≤ st.enter)
    (hcons : ¬(st.long = true ∧ st.short = true))
    (h : bbCalculateSignals env ev st = .ok (sigs, st₂)) :
    st₂.exit ≤ st₂.enter ∧ ¬(st₂.long = true ∧ st₂.short = true) := by
  unfold bbCalculateSignals at h
  by_cases hev : ev = .MARKET
  · rw [if_pos hev] at h
    cases hcpp : currentPortfolioPrice env.latest (fun b => b.Close) st with
    | error e => rw [hcpp] at h; cases h
    | ok pr =>
      obtain ⟨price, st₁⟩ := pr
      rw [hcpp] at h
      have hfr := currentPortfolioPrice_frame _ _ _ _ _ hcpp
      obtain ⟨hfL, hfS, hfE, hfX, hfP, hfY⟩ := hfr
      cases hstat : env.isStat (st₁.portfolio_prices ++ [price]) with
      | false =>
        simp only [hstat, Bool.false_eq_true, if_false] at h
        cases horder : orderPortfolio env.latest .EXIT st₁.symbol_list st₁.hedge_ratio with
        | error e => rw [horder] at h; cases h
        | ok sigs2 =>
          rw [horder] at h
          cases hfind : findStationaryPortfolio env with
          | error e => rw [hfind] at h; cases h
          | ok r =>
            obtain ⟨hedge, pp₂, port⟩ := r
            rw [hfind] at h
            injection h with h
            injection h with hsig hst
            rw [← hst]
            simp only [hfE, hfX, hfL, hfS]
            exact ⟨hex, hcons⟩
      | true =>
        simp only [hstat, if_true] at h
        split at h
        · cases h
        · split at h
          · cases h
          · rename_i hlen hvar
            have hv0 : 0 ≤ pyvariance (st₁.portfolio_prices ++ [price]) :=
              pyvariance_nonneg _ (by
                have := (st₁.portfolio_prices ++ [price]).length
                omega)
            split at h
            · rename_i l s hb2
              have hinv : ¬(l = true ∧ s = true) :=
                bbDecide_inv st₁.enter st₁.exit st₁.long st₁.short _ _ none l s
                  (by rw [hfE, hfX]; exact hex) hv0
                  (by rw [hfL, hfS]; exact hcons) hb2
              injection h with h
              injection h with hsig hst
              rw [← hst]
              exact ⟨by simpa [hfE, hfX] using hex, hinv⟩
            · rename_i dir l s hb2
              have hinv : ¬(l = true ∧ s = true) :=
                bbDecide_inv st₁.enter st₁.exit st₁.long st₁.short _ _ (some dir) l s
                  (by rw [hfE, hfX]; exact hex) hv0
                  (by rw [hfL, hfS]; exact hcons) hb2
              split at h
              · cases h
              · injection h with h
                injection h with hsig hst
                rw [← hst]
                exact ⟨by simpa [hfE, hfX] using hex, hinv⟩
  · rw [if_neg hev] at h
    injection h with h
    injection h with hsig hst
    rw [← hst]
    exact ⟨hex, hcons⟩

/-- The search result depends only on the candidate acceptance function. -/
theorem findStatAux_congr (env₁ env₂ : Env)
    (hacc : ∀ p, acceptCandidate env₁ p = acceptCandidate env₂ p) :
    ∀ L : List (List Sym), findStatAux env₁ L = findStatAux env₂ L := by
  intro L
  induction L with
  | nil => rfl
  | cons p rest ih =>
    simp only [findStatAux, hacc p, ih]

/-! ## Claim theorems -/

/-- C5: the state-transition ladder is evaluated in strict priority order and
fires at most one transition per update (`bbDecide` returns a single optional
directive); concretely, with `enterThreshold = 2`, `exitThreshold = 1/2` and
sample variance 1 (so the z-score equals `d`), the z-score sequence
`[0, 5/2, 9/5, 3/10, -21/10]` starting Flat yields: no action, Flat→Short
(`SHORT`), remain Short, remain Short, Short→Flat (`EXIT`) — the last step
even though the lower-priority Long-entry condition `z ≤ -2` also held. -/
theorem c5_state_machine_hysteresis :
    bbDecide 2 (1/2) false false 0 1 = (none, false, false) ∧
    bbDecide 2 (1/2) false false (5/2) 1 = (some .SHORT, false, true) ∧
    bbDecide 2 (1/2) false true (9/5) 1 = (none, false, true) ∧
    bbDecide 2 (1/2) false true (3/10) 1 = (none, false, true) ∧
    bbDecide 2 (1/2) false true (-21/10) 1 = (some .EXIT, false, false) ∧
    zcmpLE (-21/10) 1 (-2) = true := by
  with_unfolding_all decide

/-- C3 counterexample: with the non-negative configuration
`enterThreshold = 0`, `exitThreshold = 1` (allowed by the claim), a state
with BOTH position flags set is reachable from a Flat state in two market
updates — the claimed invariant fails as stated. -/
theorem c3_both_flags_counterexample :
    stFlat.long = false ∧ stFlat.short = false ∧
    0 ≤ stFlat.enter ∧ 0 ≤ stFlat.exit ∧
    Reach stFlat stC3end ∧ stC3end.long = true ∧ stC3end.short = true := by
  refine ⟨rfl, rfl, by with_unfolding_all decide, by with_unfolding_all decide, ?_, rfl, rfl⟩
  have h1 : bbCalculateSignals envA .MARKET stFlat = .ok (sigsC3a, stC3mid) := by
    with_unfolding_all decide
  have h2 : bbCalculateSignals envA .MARKET stC3mid = .ok (sigsC3b, stC3end) := by
    with_unfolding_all decide
  exact Reach.step envA .MARKET sigsC3b
    (Reach.step envA .MARKET sigsC3a (Reach.refl stFlat) h1) h2

/-- C3 amended: in every state reachable from a Flat state under the
hysteresis configuration `exitThreshold ≤ enterThreshold`, at most one of
the Long and Short flags is true (the invariant fails only for
`enterThreshold < exitThreshold`, see the counterexample). -/
theorem c3_amended_invariant (st₀ st : BBState)
    (h0l : st₀.long = false) (h0s : st₀.short = false)
    (hex : st₀.exit ≤ st₀.enter) (hr : Reach st₀ st) :
    ¬(st.long = true ∧ st.short = true) := by
  have main : st.exit ≤ st.enter ∧ ¬(st.long = true ∧ st.short = true) := by
    induction hr with
    | refl => exact ⟨hex, by simp [h0l, h0s]⟩
    | step env ev sigs hprev heq ih =>
      exact bb_step_inv env ev _ sigs _ ih.1 ih.2 heq
  exact main.2

/-- Witness for `c3_amended_invariant` at a concrete hysteresis state. -/
theorem c3_amended_invariant_witness :
    stC10.exit ≤ stC10.enter ∧ ¬(stC10.long = true ∧ stC10.short = true) :=
  ⟨by with_unfolding_all decide,
   c3_amended_invariant stC10 stC10 rfl rfl (by with_unfolding_all decide)
     (Reach.refl stC10)⟩

/-- C7: if every enumerated 12-element candidate is rejected or fails, the
selector terminates with the fatal exhausted-search exit (it is a total
function over the finite candidate list, so it cannot loop forever, and it
returns no partial result), and strategy initialization terminates with the
same fatal error instead of producing a strategy state. -/
theorem c7_exhausted_search (env : Env) (e x : ℚ) (dt : ℕ)
    (hrej : ∀ port ∈ combinations 12 env.sortOldest, acceptCandidate env port = none) :
    findStationaryPortfolio env = .error .systemExit ∧
    bbInit env e x dt = .error .systemExit := by
  have h : findStationaryPortfolio env = .error .systemExit :=
    findStatAux_all_reject env _ hrej
  refine ⟨h, ?_⟩
  unfold bbInit
  rw [h]

/-- Witness for `c7_exhausted_search`: under `envA` the cointegration routine
always fails, and both the selector and initialization exit fatally. -/
theorem c7_exhausted_search_witness :
    findStationaryPortfolio envA = .error .systemExit ∧
    bbInit envA 0 1 0 = .error .systemExit :=
  c7_exhausted_search envA 0 1 0 (by with_unfolding_all decide)

/-- C8: (1) the selector refines the spec-side first-accept over the
enumerated candidate list (first accepted candidate wins; the search does not
continue past it); (2) over a strictly increasing universe the enumeration of
`combinations` is strictly lexicographically increasing — the standard
combination-generation order; (3) two runs with identical universe ordering,
training windows and oracle behavior (the latest-bars feed may differ)
return identical results. -/
theorem c8_selector_determinism :
    (∀ env : Env, findStationaryPortfolio env =
      (match selectorSpec env with
       | some r => .ok r
       | none => .error .systemExit)) ∧
    (∀ (k : ℕ) (xs : List Sym), xs.Pairwise (· < ·) →
      (combinations k xs).Pairwise (fun a b => List.Lex (· < ·) a b)) ∧
    (∀ env₁ env₂ : Env, env₁.sortOldest = env₂.sortOldest →
      env₁.trainSet = env₂.trainSet → env₁.gen = env₂.gen →
      env₁.isStat = env₂.isStat →
      findStationaryPortfolio env₁ = findStationaryPortfolio env₂) := by
  refine ⟨fun env => findStatAux_eq_findSome env _, combinations_pairwise_lex, ?_⟩
  intro env₁ env₂ hs ht hg hi
  have hacc : ∀ p, acceptCandidate env₁ p = acceptCandidate env₂ p := by
    intro p
    unfold acceptCandidate
    rw [ht, hg, hi]
  unfold findStationaryPortfolio
  rw [hs]
  exact findStatAux_congr env₁ env₂ hacc _

/-- Witness for `c8_selector_determinism`: two environments that differ only
in their latest-bars feed select the same basket. -/
theorem c8_selector_determinism_witness :
    findStationaryPortfolio envA =
      findStationaryPortfolio
        { envA with latest := fun _ => [] } :=
  c8_selector_determinism.2.2 envA { envA with latest := fun _ => [] }
    rfl rfl rfl rfl

/-- C6: a candidate is accepted iff the cointegration call succeeds, both
trace statistics meet or exceed their critical values, and the synthetic
series built from the training matrix with the extracted weight vector
passes the stationarity test; and — under the external contracts that the
provider serves one column per requested member and the cointegration
routine one weight per column — any accepted basket has 12 members and a
12-entry weight vector. -/
theorem c6_basket_acceptance (env : Env)
    (hora : ∀ (m : List (List ℚ)) (r : CointRes),
      env.gen m = .ok r → r.evec0.length = numCols m)
    (hprov : ∀ p : List Sym, numCols (env.trainSet p) = p.length) :
    (∀ (port : List Sym) (h pp : List ℚ),
      acceptCandidate env port = some (h, pp) ↔
        ∃ r : CointRes, env.gen (env.trainSet port) = .ok r ∧
          r.cvt0_last ≤ r.lr1_0 ∧ r.cvm0_last ≤ r.lr2_0 ∧
          env.isStat (matVec (env.trainSet port) r.evec0) = true ∧
          h = r.evec0 ∧ pp = matVec (env.trainSet port) r.evec0) ∧
    (∀ (h pp : List ℚ) (port : List Sym),
      findStationaryPortfolio env = .ok (h, pp, port) →
        port.length = 12 ∧ h.length = 12) := by
  constructor
  · intro port h pp
    unfold acceptCandidate
    cases hg : env.gen (env.trainSet port) with
    | error e => simp
    | ok r =>
      dsimp only
      split_ifs with hcond
      · constructor
        · intro heq
          injection heq with heq
          obtain ⟨he, hp⟩ : r.evec0 = h ∧ matVec (env.trainSet port) r.evec0 = pp := by
            exact ⟨congrArg Prod.fst heq, congrArg Prod.snd heq⟩
          exact ⟨r, rfl, hcond.1, hcond.2.1, hcond.2.2, he.symm, hp.symm⟩
        · rintro ⟨r2, hr2, -, -, -, rfl, rfl⟩
          injection hr2 with hr2
          rw [hr2]
      · constructor
        · intro heq; cases heq
        · rintro ⟨r2, hr2, hc1, hc2, hc3, rfl, rfl⟩
          injection hr2 with hr2
          subst hr2
          exact absurd ⟨hc1, hc2, hc3⟩ hcond
  · intro h pp port hfind
    obtain ⟨hmem, hacc⟩ := findStatAux_ok env _ h pp port hfind
    have hlen : port.length = 12 := combinations_length 12 env.sortOldest port hmem
    refine ⟨hlen, ?_⟩
    unfold acceptCandidate at hacc
    cases hg : env.gen (env.trainSet port) with
    | error e => rw [hg] at hacc; cases hacc
    | ok r =>
      rw [hg] at hacc
      dsimp only at hacc
      split_ifs at hacc with hcond
      injection hacc with hacc
      have he : h = r.evec0 := (congrArg Prod.fst hacc).symm
      rw [he, hora _ r hg, hprov]
      exact hlen

/-- Witness for `c6_basket_acceptance` under `envW6`, whose provider and
cointegration routine honor the external contracts. -/
theorem c6_basket_acceptance_witness :
    (List.range 12).length = 12 ∧ (List.replicate 12 (1 : ℚ)).length = 12 :=
  (c6_basket_acceptance envW6
      (fun m r hr => by injection hr with hr; rw [← hr]; simp [numCols])
      (fun p => by simp [envW6, numCols])).2
    (List.replicate 12 1) [12] (List.range 12) (by with_unfolding_all decide)

/-- C1 counterexample: a decohered update under `envD` starting from an open
Long position emits the 12 `EXIT` records but leaves `long = true` (the
Position State is NOT reset to Flat) and installs the new basket's training
synthetic series `[0, 2]` (the Synthetic Price Series is NOT reset to
empty). -/
theorem c1_decoherence_counterexample :
    (bbCalculateSignals envD .MARKET stOpen).toOption.map
        (fun p => (p.2.long, p.2.short, p.2.portfolio_prices, p.1.length,
          p.1.all (fun sg => decide (sg.direction = .EXIT)))) =
      some (true, false, [0, 2], 12, true) := by
  with_unfolding_all decide

/-- C1 amended: on a decohered update the strategy emits one `EXIT` record
per current basket member, obtains a new basket from the Basket Selector
(installing its hedge vector, training synthetic series — not the empty
series — and member list), and makes no z-score decision; the long/short
flags keep their previous values instead of being reset to Flat. -/
theorem c1_decoherence_amended (env : Env) (st : BBState) (price : ℚ)
    (st₁ : BBState) (hedge pp₂ : List ℚ) (port : List Sym) (bars : Sym → Bar)
    (h1 : currentPortfolioPrice env.latest (fun b => b.Close) st = .ok (price, st₁))
    (h2 : env.isStat (st₁.portfolio_prices ++ [price]) = false)
    (hb : ∀ s ∈ st₁.symbol_list, (env.latest s).head? = some (some (bars s)))
    (hl : st₁.symbol_list.length ≤ st₁.hedge_ratio.length)
    (h4 : findStationaryPortfolio env = .ok (hedge, pp₂, port)) :
    bbCalculateSignals env .MARKET st =
      .ok (List.zipWith (fun s w => SignalEvent.mk (bars s).Symbol (bars s).Date .EXIT w)
             st₁.symbol_list st₁.hedge_ratio,
           { st₁ with hedge_ratio := hedge, portfolio_prices := pp₂, symbol_list := port }) ∧
    (List.zipWith (fun s w => SignalEvent.mk (bars s).Symbol (bars s).Date .EXIT w)
       st₁.symbol_list st₁.hedge_ratio).length = st₁.symbol_list.length ∧
    st₁.long = st.long ∧ st₁.short = st.short ∧ st₁.symbol_list = st.symbol_list := by
  have horder := orderPortfolio_spec env.latest .EXIT bars st₁.symbol_list st₁.hedge_ratio hb hl
  have hfr := currentPortfolioPrice_frame _ _ _ _ _ h1
  refine ⟨bb_step_decohere env st price st₁ _ hedge pp₂ port h1 h2 horder h4,
    ?_, hfr.1, hfr.2.1, hfr.2.2.2.2.2⟩
  rw [List.length_zipWith]
  exact Nat.min_eq_left hl

/-- Witness for `c1_decoherence_amended` under `envD`/`stOpen`. -/
theorem c1_decoherence_amended_witness :
    bbCalculateSignals envD .MARKET stOpen =
      .ok (List.zipWith
             (fun s w => SignalEvent.mk (mkBar s 7 1 0 1).Symbol (mkBar s 7 1 0 1).Date .EXIT w)
             stOpenMid.symbol_list stOpenMid.hedge_ratio,
           { stOpenMid with
             hedge_ratio := List.replicate 12 1
             portfolio_prices := [0, 2]
             symbol_list := List.range 12 }) ∧
    stOpenMid.long = stOpen.long :=
  have h := c1_decoherence_amended envD stOpen 1 stOpenMid (List.replicate 12 1) [0, 2]
    (List.range 12) (fun s => mkBar s 7 1 0 1)
    (by with_unfolding_all decide) (by with_unfolding_all decide)
    (by with_unfolding_all decide) (by with_unfolding_all decide)
    (by with_unfolding_all decide)
  ⟨h.1, h.2.2.1⟩

/-- C2 counterexample: when the data provider returns an empty bar sequence
("no data yet") for an instrument, the Baseline Strategy raises `IndexError`
at `get_latest_bars(s, N=1)[0]` instead of handling it without exception. -/
theorem c2_no_raise_counterexample :
    buyHoldCalc (fun _ => []) .MARKET { symbol_list := [0], bought := calcInitialBought } =
      .error .indexError := rfl

/-- C2 amended: neither strategy is exception-free.  The baseline does not
raise when every instrument's bar sequence is nonempty, but raises
`IndexError` on an empty one; the basket strategy raises `StatisticsError`
when the synthetic series (after the append) has fewer than 2 observations
and `ZeroDivisionError` when its sample standard deviation is 0, instead of
skipping the update. -/
theorem c2_guards_amended :
    (∀ (latest : Sym → List (Option Bar)) (st : BHState),
      (∀ s ∈ st.symbol_list, latest s ≠ []) →
      ∃ r, buyHoldCalc latest .MARKET st = .ok r) ∧
    (∀ (latest : Sym → List (Option Bar)) (st : BHState) (s : Sym) (rest : List Sym),
      st.symbol_list = s :: rest → latest s = [] →
      buyHoldCalc latest .MARKET st = .error .indexError) ∧
    (∀ (env : Env) (st : BBState) (price : ℚ) (st₁ : BBState),
      currentPortfolioPrice env.latest (fun b => b.Close) st = .ok (price, st₁) →
      env.isStat (st₁.portfolio_prices ++ [price]) = true →
      (st₁.portfolio_prices ++ [price]).length < 2 →
      bbCalculateSignals env .MARKET st = .error .statisticsError) ∧
    (∀ (env : Env) (st : BBState) (price : ℚ) (st₁ : BBState),
      currentPortfolioPrice env.latest (fun b => b.Close) st = .ok (price, st₁) →
      env.isStat (st₁.portfolio_prices ++ [price]) = true →
      ¬ (st₁.portfolio_prices ++ [price]).length < 2 →
      pyvariance (st₁.portfolio_prices ++ [price]) = 0 →
      bbCalculateSignals env .MARKET st = .error .zeroDivisionError) := by
  refine ⟨?_, ?_, ?_, ?_⟩
  · intro latest st hne
    obtain ⟨⟨sigs, b⟩, hr⟩ := bhLoop_ok latest st.symbol_list st.bought hne
    refine ⟨(sigs, { st with bought := b }), ?_⟩
    unfold buyHoldCalc
    rw [if_pos rfl, hr]
  · intro latest st s rest hsl hempty
    unfold buyHoldCalc
    rw [if_pos rfl, hsl]
    simp only [bhLoop, hempty]
  · intro env st price st₁ h1 h2 hlen
    unfold bbCalculateSignals
    rw [if_pos rfl, h1]
    simp only [h2, if_true, if_pos hlen]
  · intro env st price st₁ h1 h2 hlen hv
    unfold bbCalculateSignals
    rw [if_pos rfl, h1]
    simp only [h2, if_true, if_neg hlen, if_pos hv]

/-- Witness for `c2_guards_amended`: under `envA`, a series `[1]` receives a
second observation equal to 1, the standard deviation is 0, and the update
raises `ZeroDivisionError`. -/
theorem c2_guards_amended_witness :
    bbCalculateSignals envA .MARKET stVar = .error .zeroDivisionError :=
  c2_guards_amended.2.2.2 envA stVar 1 stVarMid
    (by with_unfolding_all decide) (by with_unfolding_all decide)
    (by with_unfolding_all decide) (by with_unfolding_all decide)

/-- C4 counterexample: immediately after basket selection the Synthetic
Price Series is the 2-row training synthetic series, not empty — its length
is 2 with zero market updates processed. -/
theorem c4_series_reset_counterexample :
    (bbInit envD 2 (1/2) 0).toOption.map (fun st => st.portfolio_prices.length) =
      some 2 ∧ (2 : ℕ) ≠ 0 :=
  ⟨by with_unfolding_all decide, by decide⟩

/-- C4 amended: after every (re-)selection the Synthetic Price Series equals
the accepted basket's training synthetic series (not the empty series);
every successfully processed stationary update grows the series by exactly
one element; a decohered update replaces it by the new training series. -/
theorem c4_series_length_amended :
    (∀ (env : Env) (e x : ℚ) (dt : ℕ) (hedge pp : List ℚ) (port : List Sym),
      findStationaryPortfolio env = .ok (hedge, pp, port) →
      bbInit env e x dt =
        .ok { enter := e
              exit := x
              current_date := dt
              symbol_list := port
              hedge_ratio := hedge
              long := false
              short := false
              portfolio_prices := pp }) ∧
    (∀ (env : Env) (st : BBState) (sigs : List SignalEvent) (st₂ : BBState)
      (price : ℚ) (st₁ : BBState),
      currentPortfolioPrice env.latest (fun b => b.Close) st = .ok (price, st₁) →
      env.isStat (st₁.portfolio_prices ++ [price]) = true →
      bbCalculateSignals env .MARKET st = .ok (sigs, st₂) →
      st₂.portfolio_prices.length = st.portfolio_prices.length + 1) ∧
    (∀ (env : Env) (st : BBState) (price : ℚ) (st₁ : BBState)
      (sigs : List SignalEvent) (st₂ : BBState) (hedge pp₂ : List ℚ) (port : List Sym),
      currentPortfolioPrice env.latest (fun b => b.Close) st = .ok (price, st₁) →
      env.isStat (st₁.portfolio_prices ++ [price]) = false →
      findStationaryPortfolio env = .ok (hedge, pp₂, port) →
      bbCalculateSignals env .MARKET st = .ok (sigs, st₂) →
      st₂.portfolio_prices = pp₂) := by
  refine ⟨?_, ?_, ?_⟩
  · intro env e x dt hedge pp port hfind
    unfold bbInit
    rw [hfind]
  · intro env st sigs st₂ price st₁ h1 h2 h
    rw [bb_step_growth env st sigs st₂ price st₁ h1 h2 h]
    simp
  · intro env st price st₁ sigs st₂ hedge pp₂ port h1 h2 hfind h
    unfold bbCalculateSignals at h
    rw [if_pos rfl, h1] at h
    simp only [h2, Bool.false_eq_true, if_false] at h
    split at h
    · cases h
    · rw [hfind] at h
      injection h with h
      injection h with hsig hst
      rw [← hst]

/-- Witness for `c4_series_length_amended`: initialization under `envD`
installs the training synthetic series `[0, 2]`. -/
theorem c4_series_length_amended_witness :
    bbInit envD 2 (1/2) 0 =
      .ok { enter := 2
            exit := 1/2
            current_date := 0
            symbol_list := List.range 12
            hedge_ratio := List.replicate 12 1
            long := false
            short := false
            portfolio_prices := [0, 2] } :=
  c4_series_length_amended.1 envD 2 (1/2) 0 (List.replicate 12 1) [0, 2]
    (List.range 12) (by with_unfolding_all decide)

/-- C9: on each update, every covered hedge-ratio entry is multiplied in
place by `factor = split * (close + dividend) / close` before the synthetic
price is computed (the returned price is the dot product with the adjusted
vector), and the multiplication compounds across successive updates: a bar
with split 2, dividend 0, close 50 has factor 2 and doubles the stored
weight on every update (3 → 6 → 12). -/
theorem c9_corporate_action_adjustment :
    (∀ (latest : Sym → List (Option Bar)) (pt : Bar → ℚ) (bars : Sym → Bar) (st : BBState),
      (∀ s ∈ st.symbol_list, (latest s).head? = some (some (bars s))) →
      (∀ s ∈ st.symbol_list, (bars s).Close ≠ 0) →
      st.symbol_list.length ≤ st.hedge_ratio.length →
      currentPortfolioPrice latest pt st =
        .ok (dotQ (st.symbol_list.map (fun s => pt (bars s)))
               (List.zipWith (fun s w => w * adjFactor (bars s)) st.symbol_list st.hedge_ratio
                 ++ st.hedge_ratio.drop st.symbol_list.length),
             { st with
               hedge_ratio :=
                 List.zipWith (fun s w => w * adjFactor (bars s)) st.symbol_list st.hedge_ratio
                   ++ st.hedge_ratio.drop st.symbol_list.length
               current_date :=
                 (st.symbol_list.map (fun s => (bars s).Date)).foldl (fun _ n => n)
                   st.current_date })) ∧
    adjFactor bar50 = 2 ∧
    currentPortfolioPrice latest50 (fun b => b.Close) stOne = .ok (300, stOneA) ∧
    currentPortfolioPrice latest50 (fun b => b.Close) stOneA = .ok (600, stOneB) := by
  refine ⟨currentPortfolioPrice_spec, ?_, ?_, ?_⟩ <;>
    · set_option maxRecDepth 4000 in with_unfolding_all decide

/-- Witness for `c9_corporate_action_adjustment` at the single-member
`bar50` fixture. -/
theorem c9_corporate_action_adjustment_witness :
    currentPortfolioPrice latest50 (fun b => b.Close) stOne =
      .ok (dotQ (stOne.symbol_list.map (fun _ => bar50.Close))
             (List.zipWith (fun _ w => w * adjFactor bar50) stOne.symbol_list stOne.hedge_ratio
               ++ stOne.hedge_ratio.drop stOne.symbol_list.length),
           { stOne with
             hedge_ratio :=
               List.zipWith (fun _ w => w * adjFactor bar50) stOne.symbol_list stOne.hedge_ratio
                 ++ stOne.hedge_ratio.drop stOne.symbol_list.length
             current_date :=
               (stOne.symbol_list.map (fun _ => bar50.Date)).foldl (fun _ n => n)
                 stOne.current_date }) :=
  c9_corporate_action_adjustment.1 latest50 (fun b => b.Close) (fun _ => bar50) stOne
    (by with_unfolding_all decide) (by with_unfolding_all decide)
    (by with_unfolding_all decide)

/-- C10 counterexample: a no-action update under `envC10` leaves the stored
hedge vector numerically unchanged although member 0's bar has dividend 1 ≠ 0
and split 1/2 ≠ 1 — its corporate-action factor cancels to exactly 1, so the
parenthetical "the stored weights change whenever any member's dividend ≠ 0
or split ≠ 1" fails. -/
theorem c10_weights_change_counterexample :
    bbCalculateSignals envC10 .MARKET stC10 = .ok ([], stC10after) ∧
    stC10after.hedge_ratio = stC10.hedge_ratio ∧
    barDiv.Dividend ≠ 0 ∧ barDiv.Split ≠ 1 ∧
    (envC10.latest 0).head? = some (some barDiv) := by
  refine ⟨?_, ?_, ?_, ?_, ?_⟩ <;> with_unfolding_all decide

/-- C10 amended: on a no-action update (guards pass, no ladder branch fires)
the state is still mutated — exactly one element is appended to the series,
every covered hedge entry is multiplied by its member's corporate-action
factor, and the stored date becomes the last member's bar date; the position
flags are unchanged and no signal is emitted.  A stored weight's VALUE
changes exactly when it is nonzero and its factor differs from 1 (not
whenever the dividend is nonzero or the split differs from 1 — the factor
can cancel to 1). -/
theorem c10_noaction_frame_amended (env : Env) (st : BBState) (price : ℚ)
    (st₁ : BBState) (bars : Sym → Bar)
    (h1 : currentPortfolioPrice env.latest (fun b => b.Close) st = .ok (price, st₁))
    (hb : ∀ s ∈ st.symbol_list, (env.latest s).head? = some (some (bars s)))
    (hc : ∀ s ∈ st.symbol_list, (bars s).Close ≠ 0)
    (hl : st.symbol_list.length ≤ st.hedge_ratio.length)
    (h2 : env.isStat (st₁.portfolio_prices ++ [price]) = true)
    (hlen : ¬ (st₁.portfolio_prices ++ [price]).length < 2)
    (hv : ¬ pyvariance (st₁.portfolio_prices ++ [price]) = 0)
    (hbd : (bbDecide st₁.enter st₁.exit st₁.long st₁.short
        (price - pymean (st₁.portfolio_prices ++ [price]))
        (pyvariance (st₁.portfolio_prices ++ [price]))).1 = none) :
    bbCalculateSignals env .MARKET st =
      .ok ([], { st₁ with portfolio_prices := st₁.portfolio_prices ++ [price] }) ∧
    st₁.portfolio_prices = st.portfolio_prices ∧
    st₁.long = st.long ∧ st₁.short = st.short ∧
    st₁.hedge_ratio =
      List.zipWith (fun s w => w * adjFactor (bars s)) st.symbol_list st.hedge_ratio
        ++ st.hedge_ratio.drop st.symbol_list.length ∧
    st₁.current_date =
      (st.symbol_list.map (fun s => (bars s).Date)).foldl (fun _ n => n) st.current_date ∧
    (∀ w f : ℚ, w * f = w ↔ w = 0 ∨ f = 1) := by
  have hfr := currentPortfolioPrice_frame _ _ _ _ _ h1
  have hspec := currentPortfolioPrice_spec env.latest (fun b => b.Close) bars st hb hc hl
  have hst₁ := h1.symm.trans hspec
  injection hst₁ with hst₁
  injection hst₁ with hprice hstate
  refine ⟨bb_step_noaction env st price st₁ h1 h2 hlen hv hbd,
    hfr.2.2.2.2.1, hfr.1, hfr.2.1, ?_, ?_, ?_⟩
  · rw [hstate]
  · rw [hstate]
  · intro w f
    rw [mul_comm, mul_left_eq_self₀]
    tauto

/-- Witness for `c10_noaction_frame_amended` at the `envC10` fixture. -/
theorem c10_noaction_frame_amended_witness :
    bbCalculateSignals envC10 .MARKET stC10 =
      .ok ([], { stC10mid with portfolio_prices := stC10mid.portfolio_prices ++ [1] }) ∧
    stC10mid.long = stC10.long :=
  have h := c10_noaction_frame_amended envC10 stC10 1 stC10mid barsC10
    (by with_unfolding_all decide) (by with_unfolding_all decide)
    (by with_unfolding_all decide) (by with_unfolding_all decide)
    (by with_unfolding_all decide) (by with_unfolding_all decide)
    (by with_unfolding_all decide) (by with_unfolding_all decide)
  ⟨h.1, h.2.2.1⟩

end AlgoTrading
